import Mathlib

/-!
Verification development for the environment-configuration and
remote-context subsystem of `dbx/utils/common.py`.

The Python module is embedded shallowly:

* JSON documents become the inductive type `Dbx.Json` (numbers are
  modelled as `Int`; no claim depends on float formatting).
* The on-disk state of a JSON file is `Option (List (String × Json))`:
  `none` means the file is absent, `some doc` means the file holds the
  object `doc` (as an association list in insertion order, mirroring a
  Python `dict`).
* The process environment is a function `String → Option String`
  (`none` = variable unset).
* Fallible operations return `Except`; a Python `return None` becomes
  `Option.none` in the result type.
-/

namespace Dbx

/-- Model of a parsed JSON/YAML document value. -/
inductive Json where
| null : Json
| bool (b : Bool) : Json
| num (n : Int) : Json
| str (s : String) : Json
| arr (elems : List Json) : Json
| obj (fields : List (String × Json)) : Json

/-- `lookupJ d k` models Python `d.get(k)` on a dict represented as an
association list (first binding wins, as dicts never hold duplicates). -/
def lookupJ : List (String × Json) → String → Option Json
| [], _ => none
| p :: rest, k => if p.1 = k then some p.2 else lookupJ rest k

/-- `setKey d k v` models the effect of Python dict assignment `d[k] = v`:
an existing binding is overwritten in place, otherwise the new binding is
appended at the end. -/
def setKey (d : List (String × Json)) (k : String) (v : Json) : List (String × Json) :=
  if d.any (fun p => p.1 == k) then d.map (fun p => if p.1 = k then (k, v) else p)
  else d ++ [(k, v)]

/-- `dictUpdate d c` models Python `d.update(c)` (shallow merge), the core of
`update_json` (common.py lines 69-75). -/
def dictUpdate (d c : List (String × Json)) : List (String × Json) :=
  c.foldl (fun acc p => setKey acc p.1 p.2) d

/-- Python `obj.get(k)` where `obj` is expected to be a dict; a non-dict
receiver raises in Python, which no claim exercises, so it is modelled
as `none`. -/
def jsonGet (j : Json) (k : String) : Option Json :=
  match j with
  | Json.obj fields => lookupJ fields k
  | _ => none

/-- The process environment, as consulted by `os.environ.get`. -/
def Env : Type := String → Option String

/-- `envGet env name` models Python `os.environ.get(name, "")`. -/
def envGet (env : Env) (name : String) : String := (env name).getD ""

/-- Character class `[^}{:]` of the NAME capture group shared by
`YamlDeploymentConfig.PATTERN` (line 112) and
`JsonDeploymentConfig.PATTERN` (line 155). -/
def nameChar (c : Char) : Bool := !(c = '}' || c = '{' || c = ':')

/-- Character class `[^}^{]` of the default-value capture group of both
PATTERN regexes. Note that placing `^` in the middle of the class makes
it a literal: the class excludes `}`, `^` and `{`. -/
def defaultChar (c : Char) : Bool := !(c = '}' || c = '^' || c = '{')

/-- Continuation of the token matcher after `${NAME:` has been consumed:
`d` is the maximal run of default characters, `r3` the rest. The match
succeeds only when the default run is non-empty and is followed by `}`.
Returns `(group1, group2, remainder)`, with group2 carrying its leading
colon exactly as the regex capture does. -/
def afterColon (name d r3 : List Char) : Option (List Char × List Char × List Char) :=
  if d = [] then none
  else
    match r3 with
    | c :: r4 => if c = '}' then some (name, ':' :: d, r4) else none
    | [] => none

/-- Continuation of the token matcher after `${` has been consumed:
`name` is the maximal run of NAME characters, `r1` the rest. -/
def afterName (name r1 : List Char) : Option (List Char × List Char × List Char) :=
  if name = [] then none
  else
    match r1 with
    | [] => none
    | c :: r2 =>
      if c = '}' then some (name, [], r2)
      else if c = ':' then afterColon name (r2.takeWhile defaultChar) (r2.dropWhile defaultChar)
      else none

/-- Matcher for the token body following `${`. -/
def tryTokenBody (rest : List Char) : Option (List Char × List Char × List Char) :=
  afterName (rest.takeWhile nameChar) (rest.dropWhile nameChar)

/-- `tryToken cs` attempts to match the regex
`\$\{([^}{:]+)(:[^}^{]+)?\}` at the start of `cs`, returning the two
capture groups and the unconsumed remainder. Maximal-munch matching is
equivalent to the regex here because each run's terminator is excluded
from its character class. -/
def tryToken (cs : List Char) : Option (List Char × List Char × List Char) :=
  match cs with
  | c1 :: c2 :: rest => if c1 = '$' ∧ c2 = '{' then tryTokenBody rest else none
  | _ => none

/-- Whether a whole string is one interpolation token, i.e. whether the
shared token body of the two PATTERN regexes matches it exactly. -/
def tokenMatch (cs : List Char) : Bool :=
  match tryToken cs with
  | some (_, _, r) => r.isEmpty
  | none => false

/-- Left-to-right non-overlapping scan for tokens, as performed by
`re.findall` / `re.sub`. Fuel-indexed; the fuel is the input length. -/
def findTokensAux : Nat → List Char → List (List Char × List Char)
| 0, _ => []
| _ + 1, [] => []
| n + 1, c :: rest =>
  match tryToken (c :: rest) with
  | some (name, dflt, rest2) => (name, dflt) :: findTokensAux n rest2
  | none => findTokensAux n rest

/-- All `(NAME, default)` capture pairs of a string, in scan order:
models `PATTERN.findall(value)` (an absent group 2 is the empty
string, as `findall` reports it). -/
def findTokens (cs : List Char) : List (List Char × List Char) :=
  findTokensAux cs.length cs

/-- Python `str.replace(old, new)`: replace every non-overlapping
occurrence of `old`, scanning left to right. Fuel-indexed. -/
def listReplaceAux : Nat → List Char → List Char → List Char → List Char
| 0, s, _, _ => s
| _ + 1, [], _, _ => []
| n + 1, c :: rest, old, new =>
  if old.isPrefixOf (c :: rest) then new ++ listReplaceAux n ((c :: rest).drop old.length) old new
  else c :: listReplaceAux n rest old new

def listReplace (s old new : List Char) : List Char :=
  listReplaceAux s.length s old new

/-- `YamlDeploymentConfig.resolve_env_vars`, lines 122-126: the value a
single `(NAME, default)` capture resolves to. `dflt` carries the leading
colon of capture group 2; `[]` means the group is absent/empty (falsy). -/
def yamlResolveEnvVar (env : Env) (name dflt : List Char) : List Char :=
  let envVal := (envGet env (String.mk name)).data
  if envVal = [] ∧ dflt ≠ [] then dflt.drop 1 else envVal

/-- Hexadecimal digit value of a character, as accepted by the `\uXXXX`
escapes of `json.loads` (either case). -/
def hexVal (c : Char) : Option Nat :=
  if 48 ≤ c.toNat ∧ c.toNat ≤ 57 then some (c.toNat - 48)
  else if 97 ≤ c.toNat ∧ c.toNat ≤ 102 then some (c.toNat - 87)
  else if 65 ≤ c.toNat ∧ c.toNat ≤ 70 then some (c.toNat - 55)
  else none

/-- Lowercase hexadecimal digit, as emitted by `json.dumps`. -/
def hexDigit (n : Nat) : Char :=
  if n < 10 then Char.ofNat (48 + n) else Char.ofNat (87 + n)

/-- A `\uXXXX` escape for one UTF-16 code unit. -/
def uEscape (n : Nat) : List Char :=
  ['\\', 'u', hexDigit (n / 4096 % 16), hexDigit (n / 256 % 16), hexDigit (n / 16 % 16),
    hexDigit (n % 16)]

/-- `json.dumps` escaping of one character of a string (default
`ensure_ascii=True`): backslash, double quote and the short control
escapes; `\uXXXX` for the other control characters and for all
non-ASCII, using a UTF-16 surrogate pair beyond the BMP; printable
ASCII passes through. -/
def escapeChar (c : Char) : List Char :=
  if c = '\\' then ['\\', '\\']
  else if c = '"' then ['\\', '"']
  else if c.toNat = 8 then ['\\', 'b']
  else if c.toNat = 9 then ['\\', 't']
  else if c.toNat = 10 then ['\\', 'n']
  else if c.toNat = 12 then ['\\', 'f']
  else if c.toNat = 13 then ['\\', 'r']
  else if c.toNat < 32 then uEscape c.toNat
  else if c.toNat < 127 then [c]
  else if c.toNat < 65536 then uEscape c.toNat
  else uEscape (55296 + (c.toNat - 65536) / 1024) ++ uEscape (56320 + (c.toNat - 65536) % 1024)

/-- `json.dumps(s)[1:-1]`: the JSON string-literal body of the string
`s`, i.e. `s` with every character escaped as `json.dumps` does. -/
def jsonEscape (s : List Char) : List Char :=
  (s.map escapeChar).flatten

/-- Characters that `json.dumps` passes through unchanged. -/
def plainChar (c : Char) : Bool :=
  if c = '\\' then false
  else if c = '"' then false
  else if 32 ≤ c.toNat ∧ c.toNat < 127 then true
  else false

/-- Read the four hex digits of a `\uXXXX` escape. -/
def readHex4 (cs : List Char) : Option (Nat × List Char) :=
  match cs with
  | h1 :: h2 :: h3 :: h4 :: rest =>
    match hexVal h1, hexVal h2, hexVal h3, hexVal h4 with
    | some a, some b, some c, some d => some (((a * 16 + b) * 16 + c) * 16 + d, rest)
    | _, _, _, _ => none
  | _ => none

/-- The string-literal unescape performed by `json.loads`, fuel-indexed
(fuel = input length suffices, every step consumes at least one
character). A high surrogate followed by a low surrogate recombines
into one character. Input outside the escape grammar — which the
pipeline modelled here never produces, since `PATTERN` matches cannot
begin or end inside an escape sequence — passes through. -/
def jsonUnescapeAux : Nat → List Char → List Char
| 0, cs => cs
| _ + 1, [] => []
| n + 1, c :: rest =>
  if c = '\\' then
    match rest with
    | [] => [c]
    | e :: rest2 =>
      if e = '"' then '"' :: jsonUnescapeAux n rest2
      else if e = '\\' then '\\' :: jsonUnescapeAux n rest2
      else if e = '/' then '/' :: jsonUnescapeAux n rest2
      else if e = 'b' then Char.ofNat 8 :: jsonUnescapeAux n rest2
      else if e = 'f' then Char.ofNat 12 :: jsonUnescapeAux n rest2
      else if e = 'n' then Char.ofNat 10 :: jsonUnescapeAux n rest2
      else if e = 'r' then Char.ofNat 13 :: jsonUnescapeAux n rest2
      else if e = 't' then Char.ofNat 9 :: jsonUnescapeAux n rest2
      else if e = 'u' then
        match readHex4 rest2 with
        | some (u1, rest3) =>
          if 55296 ≤ u1 ∧ u1 < 56320 then
            match rest3 with
            | b2 :: u2c :: rest4 =>
              if b2 = '\\' ∧ u2c = 'u' then
                match readHex4 rest4 with
                | some (u2, rest5) =>
                  if 56320 ≤ u2 ∧ u2 < 57344 then
                    Char.ofNat (65536 + (u1 - 55296) * 1024 + (u2 - 56320))
                      :: jsonUnescapeAux n rest5
                  else Char.ofNat u1 :: jsonUnescapeAux n (b2 :: u2c :: rest4)
                | none => Char.ofNat u1 :: jsonUnescapeAux n (b2 :: u2c :: rest4)
              else Char.ofNat u1 :: jsonUnescapeAux n rest3
            | _ => Char.ofNat u1 :: jsonUnescapeAux n rest3
          else Char.ofNat u1 :: jsonUnescapeAux n rest3
        | none => c :: e :: jsonUnescapeAux n rest2
      else c :: e :: jsonUnescapeAux n rest2
  else c :: jsonUnescapeAux n rest

/-- `JsonDeploymentConfig.resolve_env_vars._env_resolver`, lines
161-167: select `env_val` by the shared rule (environment value if
non-empty, else `default_val[1:]` if the capture is truthy, else the
empty string), then return `json.dumps(env_val)[1:-1]` — the selected
text JSON-escaped, since it is spliced into the serialized document.
`name` and `dflt` are the captures from that serialized text. -/
def jsonResolveEnvVar (env : Env) (name dflt : List Char) : List Char :=
  let envVal := (envGet env (String.mk name)).data
  jsonEscape (if envVal = [] ∧ dflt ≠ [] then dflt.drop 1 else envVal)

/-- `YamlDeploymentConfig.resolve_env_vars`, lines 115-131: find every
capture pair, then for each one `str.replace` all occurrences of the
matched token text with its resolved value. -/
def yamlResolveValue (env : Env) (value : String) : String :=
  (findTokens value.data).foldl
    (fun fullValue var =>
      let envVal := yamlResolveEnvVar env var.1 var.2
      String.mk (listReplace fullValue.data ('$' :: '{' :: (var.1 ++ var.2 ++ ['}'])) envVal))
    value

/-- Single left-to-right substitution pass of `PATTERN.sub`, as used by
`JsonDeploymentConfig.resolve_env_vars` over the serialized document. -/
def subTokensAux (env : Env) : Nat → List Char → List Char
| 0, cs => cs
| _ + 1, [] => []
| n + 1, c :: rest =>
  match tryToken (c :: rest) with
  | some (name, dflt, rest2) => jsonResolveEnvVar env name dflt ++ subTokensAux env n rest2
  | none => c :: subTokensAux env n rest

/-- The `json.dumps` → `PATTERN.sub` → `json.loads` pipeline of
`JsonDeploymentConfig.resolve_env_vars`, restricted to one string value
of the document: escape the string into its serialized literal body,
substitute every token there, and unescape the result. This is the
program's behavior for a string whose `$` occurrences all start tokens
complete within the literal; when a string holds an incomplete token
(for example the value `${A:x`), the document-wide `PATTERN.sub` can
consume the literal's closing quote and the following structure, and
`json.loads` then raises `JSONDecodeError` — an error path outside this
per-string model (recorded in the C2 amendment) that no claim relies
on. -/
def jsonResolveValue (env : Env) (s : String) : String :=
  let escaped := jsonEscape s.data
  let substituted := subTokensAux env escaped.length escaped
  String.mk (jsonUnescapeAux substituted.length substituted)

mutual

/-- Apply a string transformation to every string of a document, keys
included (the YAML implicit resolver tags any matching scalar, keys
included; the JSON variant substitutes over the full serialized text). -/
def mapStrings (f : String → String) : Json → Json
| Json.null => Json.null
| Json.bool b => Json.bool b
| Json.num n => Json.num n
| Json.str s => Json.str (f s)
| Json.arr xs => Json.arr (mapStringsList f xs)
| Json.obj fs => Json.obj (mapStringsFields f fs)

def mapStringsList (f : String → String) : List Json → List Json
| [] => []
| x :: xs => mapStrings f x :: mapStringsList f xs

def mapStringsFields (f : String → String) : List (String × Json) → List (String × Json)
| [] => []
| p :: ps => (f p.1, mapStrings f p.2) :: mapStringsFields f ps

end

/-- `YamlDeploymentConfig._read_yaml` on an already-parsed raw document:
every scalar that matches the pattern is resolved during loading. -/
def yamlReadResolved (env : Env) (doc : Json) : Json :=
  mapStrings (yamlResolveValue env) doc

/-- `JsonDeploymentConfig.resolve_env_vars` at document level:
serialize, substitute every token, re-parse — applied here per string
of the document (keys included, since the substitution runs over the
full serialized text). See `jsonResolveValue` for the scope of the
per-string restriction. -/
def jsonResolveEnvVars (env : Env) (doc : Json) : Json :=
  mapStrings (jsonResolveValue env) doc

/-- `YamlDeploymentConfig.get_environment` (lines 146-147):
`read_yaml(path).get("environments").get(environment)`. -/
def yamlGetEnvironment (env : Env) (doc : Json) (environment : String) : Option Json :=
  (jsonGet (yamlReadResolved env doc) "environments").bind (fun block => jsonGet block environment)

/-- `JsonDeploymentConfig.get_environment` (lines 171-172):
`resolve_env_vars(read_json(path)).get(environment)` — note the lookup
is on the top level of the document, not under an `environments` key. -/
def jsonGetEnvironment (env : Env) (doc : Json) (environment : String) : Option Json :=
  jsonGet (jsonResolveEnvVars env doc) environment

/-- `YamlDeploymentConfig.get_all_environment_names` (lines 149-150):
`list(read_yaml(path).get("environments").keys())`. -/
def yamlGetAllEnvironmentNames (env : Env) (doc : Json) : Option (List String) :=
  match jsonGet (yamlReadResolved env doc) "environments" with
  | some (Json.obj fields) => some (fields.map Prod.fst)
  | _ => none

/-- `JsonDeploymentConfig.get_all_environment_names` (lines 174-175):
`list(resolve_env_vars(read_json(path)).keys())` — top-level keys. -/
def jsonGetAllEnvironmentNames (env : Env) (doc : Json) : Option (List String) :=
  match jsonResolveEnvVars env doc with
  | Json.obj fields => some (fields.map Prod.fst)
  | _ => none

/-- The scalar `${WS_DIR:/tmp/ws}` of the specification scenario. -/
def wsToken : String :=
  String.mk ('$' :: '{' :: ("WS_DIR".data ++ ':' :: "/tmp/ws".data ++ ['}']))

/-- The deployment config of the specification scenario:
an `environments` wrapper holding one environment `default`. -/
def deploymentCfg : Json :=
  Json.obj [("environments", Json.obj [("default", Json.obj [("workspace_dir", Json.str wsToken)])])]

/-- An environment in which every variable (`WS_DIR` included) is unset. -/
def envNone : Env := fun _ => none

/-- The token shape asserted by the specification for the two PATTERN
regexes: NAME is non-empty and excludes braces and the colon. -/
def claimNameChar (c : Char) : Bool := !(c = '{' || c = '}' || c = ':')

/-- The default-value shape asserted by the specification: non-empty and
excluding only the two braces. Stated from the specification's words, to
be compared with `defaultChar`, which is read off the regex itself. -/
def claimDefaultChar (c : Char) : Bool := !(c = '{' || c = '}')

/-- A string is a token in the specification's sense: `${NAME}` or
`${NAME:default}` with the character classes the specification asserts.
Stated from the specification's words, for comparison with `tokenMatch`. -/
def claimTokenShape (cs : List Char) : Prop :=
  (∃ n, n ≠ [] ∧ (∀ c ∈ n, claimNameChar c = true) ∧ cs = '$' :: '{' :: (n ++ ['}']))
  ∨ (∃ n d, n ≠ [] ∧ d ≠ [] ∧ (∀ c ∈ n, claimNameChar c = true)
      ∧ (∀ c ∈ d, claimDefaultChar c = true)
      ∧ cs = '$' :: '{' :: (n ++ ':' :: (d ++ ['}'])))

/-- The token shape read off the regexes themselves (default excludes
`^` as well, since `[^}^{]` lists `^` as a literal class member). -/
def regexTokenShape (cs : List Char) : Prop :=
  (∃ n, n ≠ [] ∧ (∀ c ∈ n, nameChar c = true) ∧ cs = '$' :: '{' :: (n ++ ['}']))
  ∨ (∃ n d, n ≠ [] ∧ d ≠ [] ∧ (∀ c ∈ n, nameChar c = true)
      ∧ (∀ c ∈ d, defaultChar c = true)
      ∧ cs = '$' :: '{' :: (n ++ ':' :: (d ++ ['}'])))

/-- `${V:a^b}`: a token in the specification's sense whose default value
contains a caret. -/
def caretToken : List Char := ['$', '{', 'V', ':', 'a', '^', 'b', '}']

/-- `${A:a\b}` (one backslash): a recognized token whose default value
is changed by JSON string escaping. -/
def backslashToken : String := String.mk ['$', '{', 'A', ':', 'a', '\\', 'b', '}']

/-- Errors surfaced by the project metadata store. -/
inductive DbxError where
| notConfigured : DbxError
deriving DecidableEq

/-- `InfoFile.get` (lines 213-217): raise when the info document does
not exist on disk, otherwise `read_json(INFO_FILE_PATH).get(item)`. -/
def infoGet (info : Option (List (String × Json))) (item : String) : Except DbxError (Option Json) :=
  match info with
  | none => Except.error DbxError.notConfigured
  | some doc => Except.ok (lookupJ doc item)

/-- The document written by `InfoFile.initialize` (lines 200-207):
`{"environments": {}}`. -/
def initInfoContent : List (String × Json) := [("environments", Json.obj [])]

/-- The info documents reachable through the store's API: the one
written by `initialize`, followed by any number of `InfoFile.update`
calls, each a shallow `update_json` merge. -/
inductive InfoState : List (String × Json) → Prop where
| initialized : InfoState initInfoContent
| updated (d c : List (String × Json)) : InfoState d → InfoState (dictUpdate d c)

/-- `ContextLockFile.set_context` (lines 80-81):
`update_json({"context_id": context_id}, LOCK_FILE_PATH)`; a missing
lock file is treated as the empty document by `update_json`. Returns the
document written back to disk. -/
def setContext (lock : Option (List (String × Json))) (contextId : String) : List (String × Json) :=
  dictUpdate (lock.getD []) [("context_id", Json.str contextId)]

/-- `ContextLockFile.get_context` (lines 83-88): `None` when the lock
file is absent, otherwise `read_json(LOCK_FILE_PATH).get("context_id")`. -/
def getContext (lock : Option (List (String × Json))) : Option Json :=
  match lock with
  | some d => lookupJ d "context_id"
  | none => none

/-- Classification of the exceptions the `requests` transport can raise
out of `ApiClient.perform_query`: `httpError` is
`requests.exceptions.HTTPError` (an HTTP error response); the other
constructors are transport failures outside that class. -/
inductive RequestsError where
| httpError : RequestsError
| connectionError : RequestsError
| timeout : RequestsError
deriving DecidableEq

/-- `ApiV1Client.get_context_status` (lines 236-241): forward the query
result; catch exactly `requests.exceptions.HTTPError` and turn it into a
`None` return. Any other exception propagates. A Python `return None`
is `Except.ok none`; a returned result `r` is `Except.ok (some r)`. -/
def getContextStatus {P R : Type} (query : P → Except RequestsError R) (payload : P) :
    Except RequestsError (Option R) :=
  match query payload with
  | Except.ok result => Except.ok (some result)
  | Except.error RequestsError.httpError => Except.ok none
  | Except.error e => Except.error e

/-- The `retry` decorator of the `retry` library, as applied to
`create_context`: attempt `f`; on an exception with more than one try
remaining, sleep the current delay, multiply it by `backoff` and retry;
with one try remaining, re-raise. `f i` is the outcome of the i-th
attempt (0-indexed). Returns the final outcome, the number of attempts
performed, and the list of delays slept, in order. -/
def retryExec {E A : Type} (f : Nat → Except E A) (backoff : Nat) :
    Nat → Nat → Nat → Except E A × Nat × List Nat
| 0, _, idx => (f idx, 1, [])
| 1, _, idx => (f idx, 1, [])
| t + 2, delay, idx =>
  match f idx with
  | Except.ok a => (Except.ok a, 1, [])
  | Except.error _ =>
    let r := retryExec f backoff (t + 1) (delay * backoff) (idx + 1)
    (r.1, r.2.1 + 1, delay :: r.2.2)

/-- `tries=10` of the `@retry` decorator on `create_context` (line 245). -/
def createContextTries : Nat := 10

/-- `delay=5` of the `@retry` decorator on `create_context` (line 245). -/
def createContextDelay : Nat := 5

/-- `backoff=5` of the `@retry` decorator on `create_context` (line 245). -/
def createContextBackoff : Nat := 5

/-- `ApiV1Client.create_context` (lines 245-248): the context-creation
query under the bounded-retry policy. -/
def createContextRun {E A : Type} (f : Nat → Except E A) : Except E A × Nat × List Nat :=
  retryExec f createContextBackoff createContextTries createContextDelay 0

/-- The delay schedule of the retry decorator: `n` delays starting at
`delay`, each multiplied by `backoff`. -/
def delaysList (delay backoff : Nat) : Nat → List Nat
| 0 => []
| n + 1 => delay :: delaysList (delay * backoff) backoff n

theorem lookupJ_map_set (k : String) (v : Json) :
    ∀ (d : List (String × Json)), d.any (fun p => p.1 == k) = true →
      lookupJ (d.map (fun p => if p.1 = k then (k, v) else p)) k = some v := by
  intro d
  induction d with
  | nil => intro h; simp at h
  | cons p rest ih =>
    intro h
    by_cases hp : p.1 = k
    · simp [lookupJ, hp]
    · simp only [List.any_cons, Bool.or_eq_true, beq_iff_eq] at h
      rcases h with h | h
      · exact absurd h hp
      · simp only [List.map_cons, if_neg hp, lookupJ]
        exact ih h

theorem lookupJ_append_new (k : String) (v : Json) :
    ∀ (d : List (String × Json)), d.any (fun p => p.1 == k) = false →
      lookupJ (d ++ [(k, v)]) k = some v := by
  intro d
  induction d with
  | nil => intro _; simp [lookupJ]
  | cons p rest ih =>
    intro h
    simp only [List.any_cons, Bool.or_eq_false_iff, beq_eq_false_iff_ne, ne_eq] at h
    simp only [List.cons_append, lookupJ, if_neg h.1]
    exact ih h.2

theorem lookupJ_setKey_self (d : List (String × Json)) (k : String) (v : Json) :
    lookupJ (setKey d k v) k = some v := by
  unfold setKey
  by_cases h : d.any (fun p => p.1 == k) = true
  · rw [if_pos h]; exact lookupJ_map_set k v d h
  · rw [if_neg h]
    exact lookupJ_append_new k v d (Bool.eq_false_iff.mpr h)

theorem lookupJ_setKey_other (d : List (String × Json)) (k : String) (v : Json)
    (k2 : String) (hk : k2 ≠ k) : lookupJ (setKey d k v) k2 = lookupJ d k2 := by
  unfold setKey
  by_cases h : d.any (fun p => p.1 == k) = true
  · rw [if_pos h]
    clear h
    induction d with
    | nil => rfl
    | cons p rest ih =>
      by_cases hp : p.1 = k
      · simp only [List.map_cons, if_pos hp, lookupJ]
        rw [if_neg (fun hh : k = k2 => hk hh.symm),
            if_neg (fun hh : p.1 = k2 => hk (hp.symm.trans hh).symm)]
        exact ih
      · simp only [List.map_cons, if_neg hp, lookupJ]
        by_cases hp2 : p.1 = k2
        · rw [if_pos hp2, if_pos hp2]
        · rw [if_neg hp2, if_neg hp2]
          exact ih
  · rw [if_neg h]
    clear h
    induction d with
    | nil =>
      simp only [List.nil_append, lookupJ]
      rw [if_neg (fun hh : k = k2 => hk hh.symm)]
    | cons p rest ih =>
      simp only [List.cons_append, lookupJ]
      by_cases hp2 : p.1 = k2
      · rw [if_pos hp2, if_pos hp2]
      · rw [if_neg hp2, if_neg hp2]
        exact ih

theorem lookupJ_dictUpdate_mono (k : String) :
    ∀ (c d : List (String × Json)), (∃ v, lookupJ d k = some v) →
      ∃ v, lookupJ (dictUpdate d c) k = some v := by
  intro c
  induction c with
  | nil => intro d h; exact h
  | cons p ps ih =>
    intro d h
    show ∃ v, lookupJ (dictUpdate (setKey d p.1 p.2) ps) k = some v
    apply ih
    by_cases hp : p.1 = k
    · exact ⟨p.2, hp ▸ lookupJ_setKey_self d p.1 p.2⟩
    · rw [lookupJ_setKey_other d p.1 p.2 k (fun hh => hp hh.symm)]
      exact h

/-- C10: after `set_context(id)` on any prior lock state (absent file,
empty document, or a document with other keys), `get_context()` returns
`id`, and every other top-level key of the lock document keeps its
prior value. -/
theorem claim_C10 (lock : Option (List (String × Json))) (contextId : String) :
    getContext (some (setContext lock contextId)) = some (Json.str contextId)
    ∧ ∀ k, k ≠ "context_id" →
        lookupJ (setContext lock contextId) k = lookupJ (lock.getD []) k := by
  constructor
  · show lookupJ (setKey (lock.getD []) "context_id" (Json.str contextId)) "context_id"
        = some (Json.str contextId)
    exact lookupJ_setKey_self _ _ _
  · intro k hk
    exact lookupJ_setKey_other _ _ _ _ hk

theorem claim_C10_witness :
    getContext (some (setContext (some [("other", Json.num 1)]) "ctx")) = some (Json.str "ctx")
    ∧ lookupJ (setContext (some [("other", Json.num 1)]) "ctx") "other"
        = lookupJ [("other", Json.num 1)] "other" :=
  ⟨(claim_C10 (some [("other", Json.num 1)]) "ctx").1,
   (claim_C10 (some [("other", Json.num 1)]) "ctx").2 "other" (by decide)⟩

/-- C9: `initialize` writes `{"environments": {}}`, and the key
`environments` is present in every document reachable from it through
`update` calls, because `update_json`'s shallow merge never removes a
top-level key. -/
theorem claim_C9 :
    lookupJ initInfoContent "environments" = some (Json.obj [])
    ∧ ∀ d, InfoState d → ∃ v, lookupJ d "environments" = some v := by
  refine ⟨rfl, ?_⟩
  intro d h
  induction h with
  | initialized => exact ⟨Json.obj [], rfl⟩
  | updated d c _ ih => exact lookupJ_dictUpdate_mono "environments" c d ih

theorem claim_C9_witness :
    ∃ v, lookupJ (dictUpdate initInfoContent [("profile", Json.str "p")]) "environments" = some v :=
  claim_C9.2 _ (InfoState.updated _ _ InfoState.initialized)

/-- C7: `InfoFile.get` fails with NotConfigured exactly when the info
document is absent; when it exists, the stored value (or `None` for a
missing key) is returned and NotConfigured is never raised. -/
theorem claim_C7 (item : String) :
    infoGet none item = Except.error DbxError.notConfigured
    ∧ (∀ doc v, lookupJ doc item = some v → infoGet (some doc) item = Except.ok (some v))
    ∧ (∀ doc, lookupJ doc item = none → infoGet (some doc) item = Except.ok none)
    ∧ (∀ doc, infoGet (some doc) item ≠ Except.error DbxError.notConfigured) := by
  refine ⟨rfl, ?_, ?_, ?_⟩
  · intro doc v h
    simp [infoGet, h]
  · intro doc h
    simp [infoGet, h]
  · intro doc h
    simp [infoGet] at h

theorem claim_C7_witness :
    infoGet (some [("environments", Json.obj [])]) "environments" = Except.ok (some (Json.obj [])) :=
  (claim_C7 "environments").2.1 [("environments", Json.obj [])] (Json.obj []) rfl

/-- C8: `get_context()` returns `None` both when the lock file is absent
and when its document lacks the key `context_id`; the model is total, so
neither case raises. -/
theorem claim_C8 (d : List (String × Json)) (h : lookupJ d "context_id" = none) :
    getContext none = none ∧ getContext (some d) = none := by
  exact ⟨rfl, h⟩

theorem claim_C8_witness :
    getContext none = none ∧ getContext (some [("other", Json.num 1)]) = none :=
  claim_C8 [("other", Json.num 1)] rfl

theorem retryExec_ok {E A : Type} (f : Nat → Except E A) (b tries delay idx : Nat) (a : A)
    (h : f idx = Except.ok a) : retryExec f b tries delay idx = (Except.ok a, 1, []) := by
  match tries with
  | 0 => simp [retryExec, h]
  | 1 => simp [retryExec, h]
  | t + 2 => simp [retryExec, h]

theorem retryExec_step {E A : Type} (f : Nat → Except E A) (b t delay idx : Nat) (e : E)
    (h : f idx = Except.error e) :
    retryExec f b (t + 2) delay idx =
      ((retryExec f b (t + 1) (delay * b) (idx + 1)).1,
       (retryExec f b (t + 1) (delay * b) (idx + 1)).2.1 + 1,
       delay :: (retryExec f b (t + 1) (delay * b) (idx + 1)).2.2) := by
  simp [retryExec, h]

theorem retryExec_success {E A : Type} (f : Nat → Except E A) (b : Nat) (a : A) :
    ∀ (k tries delay idx : Nat), k + 1 ≤ tries →
      (∀ j, j < k → ∃ e, f (idx + j) = Except.error e) →
      f (idx + k) = Except.ok a →
      retryExec f b tries delay idx = (Except.ok a, k + 1, delaysList delay b k) := by
  intro k
  induction k with
  | zero =>
    intro tries delay idx _ _ hok
    exact retryExec_ok f b tries delay idx a (by simpa using hok)
  | succ k ih =>
    intro tries delay idx hlt hf hok
    obtain ⟨e0, he0⟩ := hf 0 (Nat.succ_pos k)
    match tries, hlt with
    | t + 2, hlt =>
      rw [retryExec_step f b t delay idx e0 (by simpa using he0)]
      have hrec := ih (t + 1) (delay * b) (idx + 1) (by omega)
        (fun j hj => by
          obtain ⟨e, he⟩ := hf (j + 1) (by omega)
          refine ⟨e, ?_⟩
          have harith : idx + 1 + j = idx + (j + 1) := by omega
          rw [harith]
          exact he)
        (by
          have harith : idx + 1 + k = idx + (k + 1) := by omega
          rw [harith]
          exact hok)
      rw [hrec]
      rfl

theorem retryExec_allFail {E A : Type} (f : Nat → Except E A) (b : Nat) :
    ∀ (tries delay idx : Nat), 1 ≤ tries →
      (∀ j, j < tries → ∃ e, f (idx + j) = Except.error e) →
      retryExec f b tries delay idx
        = (f (idx + (tries - 1)), tries, delaysList delay b (tries - 1)) := by
  intro tries
  induction tries with
  | zero => intro delay idx h; omega
  | succ t ih =>
    intro delay idx _ hf
    match t, ih with
    | 0, _ => simp [retryExec, delaysList]
    | s + 1, ih =>
      obtain ⟨e0, he0⟩ := hf 0 (by omega)
      rw [retryExec_step f b s delay idx e0 (by simpa using he0)]
      have hrec := ih (delay * b) (idx + 1) (by omega)
        (fun j hj => by
          obtain ⟨e, he⟩ := hf (j + 1) (by omega)
          refine ⟨e, ?_⟩
          have harith : idx + 1 + j = idx + (j + 1) := by omega
          rw [harith]
          exact he)
      rw [hrec]
      have harith : idx + 1 + (s + 1 - 1) = idx + (s + 1 + 1 - 1) := by omega
      rw [harith]
      rfl

/-- C5: `create_context` performs up to 10 attempts with initial delay 5
and backoff multiplier 5. If all 10 attempts fail, the outcome is the
10th attempt's failure, after exactly 10 attempts and the delay schedule
5, 25, ..., 5^9; if attempt k+1 is the first to succeed (k < 10), its
result is returned after exactly k+1 attempts. -/
theorem claim_C5 {E A : Type} (f : Nat → Except E A) :
    ((∀ i, i < 10 → ∃ e, f i = Except.error e) →
        createContextRun f
          = (f 9, 10, [5, 25, 125, 625, 3125, 15625, 78125, 390625, 1953125]))
    ∧ (∀ k a, k < 10 → (∀ i, i < k → ∃ e, f i = Except.error e) → f k = Except.ok a →
        createContextRun f = (Except.ok a, k + 1, delaysList 5 5 k)) := by
  constructor
  · intro h
    have hrun := retryExec_allFail f 5 10 5 0 (by omega)
      (fun j hj => by simpa using h j hj)
    have hd : delaysList 5 5 (10 - 1) = [5, 25, 125, 625, 3125, 15625, 78125, 390625, 1953125] := by
      decide
    rw [show createContextRun f = retryExec f 5 10 5 0 from rfl, hrun, hd]
  · intro k a hk hf hok
    have hrun := retryExec_success f 5 a k 10 5 0 (by omega)
      (fun j hj => by simpa using hf j hj) (by simpa using hok)
    rw [show createContextRun f = retryExec f 5 10 5 0 from rfl, hrun]

theorem claim_C5_witness :
    createContextRun (fun _ => (Except.error () : Except Unit Unit))
      = (Except.error (), 10, [5, 25, 125, 625, 3125, 15625, 78125, 390625, 1953125]) :=
  (claim_C5 (fun _ => (Except.error () : Except Unit Unit))).1 (fun _ _ => ⟨(), rfl⟩)

/-- C3 (amended): `get_context_status` returns the query result on
success and `None` when the query raises an HTTPError; any other
transport exception (for example a connection error) propagates to the
caller instead of being turned into `None`. -/
theorem claim_C3 {P R : Type} (query : P → Except RequestsError R) (payload : P) :
    (∀ r, query payload = Except.ok r → getContextStatus query payload = Except.ok (some r))
    ∧ (query payload = Except.error RequestsError.httpError →
        getContextStatus query payload = Except.ok none)
    ∧ (∀ e, e ≠ RequestsError.httpError → query payload = Except.error e →
        getContextStatus query payload = Except.error e) := by
  refine ⟨?_, ?_, ?_⟩
  · intro r h
    simp [getContextStatus, h]
  · intro h
    simp [getContextStatus, h]
  · intro e he h
    cases e with
    | httpError => exact absurd rfl he
    | connectionError => simp [getContextStatus, h]
    | timeout => simp [getContextStatus, h]

theorem claim_C3_counterexample :
    getContextStatus (fun _ => (Except.error RequestsError.connectionError : Except RequestsError Unit))
        (0 : Nat)
      = Except.error RequestsError.connectionError
    ∧ getContextStatus (fun _ => (Except.error RequestsError.connectionError : Except RequestsError Unit))
        (0 : Nat)
      ≠ Except.ok none :=
  ⟨rfl, fun h => nomatch h⟩

theorem claim_C3_witness :
    getContextStatus (fun _ => (Except.error RequestsError.httpError : Except RequestsError Unit))
        (0 : Nat)
      = Except.ok none :=
  (claim_C3 (fun _ => (Except.error RequestsError.httpError : Except RequestsError Unit)) 0).2.1 rfl

theorem plainChar_spec (c : Char) (h : plainChar c = true) :
    c ≠ '\\' ∧ c ≠ '"' ∧ 32 ≤ c.toNat ∧ c.toNat < 127 := by
  unfold plainChar at h
  by_cases h1 : c = '\\'
  · rw [if_pos h1] at h
    exact Bool.noConfusion h
  · rw [if_neg h1] at h
    by_cases h2 : c = '"'
    · rw [if_pos h2] at h
      exact Bool.noConfusion h
    · rw [if_neg h2] at h
      by_cases h3 : 32 ≤ c.toNat ∧ c.toNat < 127
      · exact ⟨h1, h2, h3.1, h3.2⟩
      · rw [if_neg h3] at h
        exact Bool.noConfusion h

theorem escapeChar_plain (c : Char) (h : plainChar c = true) : escapeChar c = [c] := by
  obtain ⟨h1, h2, h3, h4⟩ := plainChar_spec c h
  unfold escapeChar
  rw [if_neg h1, if_neg h2, if_neg (by omega), if_neg (by omega), if_neg (by omega),
      if_neg (by omega), if_neg (by omega), if_neg (by omega), if_pos h4]

theorem jsonEscape_plain :
    ∀ (s : List Char), (∀ c ∈ s, plainChar c = true) → jsonEscape s = s := by
  intro s
  induction s with
  | nil => intro _; rfl
  | cons c cs ih =>
    intro h
    show escapeChar c ++ jsonEscape cs = c :: cs
    rw [escapeChar_plain c (h c (List.mem_cons_self c cs)),
        ih (fun a ha => h a (List.mem_cons_of_mem c ha))]
    rfl

/-- C4 (amended): both variants select the replacement by the same rule
— environment value when set and non-empty; otherwise the default with
its leading colon stripped when a default is present; otherwise the
empty string — but the JSON variant splices the JSON-ESCAPED form of
the selected text into the serialized document (and, in the default
path, the capture itself comes from that escaped text), so the two
variants resolve a token to the same value exactly when JSON escaping
leaves the selected text unchanged; a default containing a backslash,
quote, control or non-ASCII character ends up once-JSON-escaped in the
JSON variant where the YAML variant yields it raw. -/
theorem claim_C4 (env : Env) (name : List Char) :
    (∀ dflt, jsonResolveEnvVar env name dflt = jsonEscape (yamlResolveEnvVar env name dflt))
    ∧ (∀ dflt, (∀ c ∈ yamlResolveEnvVar env name dflt, plainChar c = true) →
        jsonResolveEnvVar env name dflt = yamlResolveEnvVar env name dflt)
    ∧ (∀ (v : String) dflt, env (String.mk name) = some v → v ≠ "" →
        yamlResolveEnvVar env name dflt = v.data)
    ∧ (∀ (d : List Char), (env (String.mk name) = none ∨ env (String.mk name) = some "") →
        yamlResolveEnvVar env name (':' :: d) = d)
    ∧ ((env (String.mk name) = none ∨ env (String.mk name) = some "") →
        yamlResolveEnvVar env name [] = []) := by
  refine ⟨fun _ => rfl, ?_, ?_, ?_, ?_⟩
  · intro dflt hplain
    show jsonEscape (yamlResolveEnvVar env name dflt) = yamlResolveEnvVar env name dflt
    exact jsonEscape_plain (yamlResolveEnvVar env name dflt) hplain
  · intro v dflt h hv
    have hd : v.data ≠ [] := fun hdata => hv (congrArg String.mk hdata)
    simp only [yamlResolveEnvVar, envGet, h, Option.getD_some]
    rw [if_neg (fun hc => hd hc.1)]
  · intro d h
    simp only [yamlResolveEnvVar, envGet]
    rcases h with h | h <;> rw [h] <;> rfl
  · intro h
    simp only [yamlResolveEnvVar, envGet]
    rcases h with h | h <;> rw [h] <;> rfl

theorem claim_C4_witness :
    jsonResolveEnvVar envNone ['A'] (':' :: ['d']) = yamlResolveEnvVar envNone ['A'] (':' :: ['d'])
    ∧ yamlResolveEnvVar envNone ['A'] (':' :: ['d']) = ['d'] :=
  ⟨(claim_C4 envNone ['A']).2.1 (':' :: ['d']) (by decide),
   (claim_C4 envNone ['A']).2.2.2.1 ['d'] (Or.inl rfl)⟩

theorem claim_C4_counterexample :
    yamlResolveValue envNone backslashToken = String.mk ['a', '\\', 'b']
    ∧ jsonResolveValue envNone backslashToken = String.mk ['a', '\\', '\\', 'b']
    ∧ String.mk ['a', '\\', 'b'] ≠ String.mk ['a', '\\', '\\', 'b'] :=
  ⟨rfl, rfl, by decide⟩

theorem tryToken_not_dollar (c : Char) (rest : List Char) (hc : c ≠ '$') :
    tryToken (c :: rest) = none := by
  cases rest with
  | nil => rfl
  | cons c2 r2 =>
    simp only [tryToken]
    rw [if_neg (fun hh => hc hh.1)]

theorem findTokensAux_no_dollar :
    ∀ (n : Nat) (cs : List Char), '$' ∉ cs → findTokensAux n cs = [] := by
  intro n
  induction n with
  | zero => intro cs _; rfl
  | succ n ih =>
    intro cs h
    cases cs with
    | nil => rfl
    | cons c rest =>
      have hc : c ≠ '$' := fun hh => h (by rw [← hh]; exact List.mem_cons_self c rest)
      simp only [findTokensAux]
      rw [tryToken_not_dollar c rest hc]
      exact ih rest (fun hm => h (List.mem_cons_of_mem c hm))

theorem yamlResolveValue_no_dollar (env : Env) (s : String) (h : '$' ∉ s.data) :
    yamlResolveValue env s = s := by
  unfold yamlResolveValue
  rw [show findTokens s.data = [] from findTokensAux_no_dollar s.data.length s.data h]
  rfl

theorem mapStringsFields_lookup (f : String → String) :
    ∀ (l : List (String × Json)), (∀ p ∈ l, f p.1 = p.1) →
      ∀ k, lookupJ (mapStringsFields f l) k = (lookupJ l k).map (mapStrings f) := by
  intro l
  induction l with
  | nil => intro _ k; rfl
  | cons p ps ih =>
    intro h k
    have hp : f p.1 = p.1 := h p (List.mem_cons_self p ps)
    simp only [mapStringsFields, lookupJ, hp]
    by_cases hk : p.1 = k
    · rw [if_pos hk, if_pos hk]
      rfl
    · rw [if_neg hk, if_neg hk]
      exact ih (fun q hq => h q (List.mem_cons_of_mem p hq)) k

theorem mapStringsFields_keys (f : String → String) :
    ∀ (l : List (String × Json)), (∀ p ∈ l, f p.1 = p.1) →
      (mapStringsFields f l).map Prod.fst = l.map Prod.fst := by
  intro l
  induction l with
  | nil => intro _; rfl
  | cons p ps ih =>
    intro h
    have hp : f p.1 = p.1 := h p (List.mem_cons_self p ps)
    simp only [mapStringsFields, List.map_cons, hp]
    rw [ih (fun q hq => h q (List.mem_cons_of_mem p hq))]

theorem yamlResolve_wsToken (env : Env) (hwd : env "WS_DIR" = none) :
    yamlResolveValue env wsToken = "/tmp/ws" := by
  have h1 : yamlResolveEnvVar env ("WS_DIR".data) (':' :: "/tmp/ws".data) = "/tmp/ws".data := by
    simp only [yamlResolveEnvVar, envGet]
    rw [show String.mk ("WS_DIR".data) = "WS_DIR" from rfl, hwd]
    rfl
  have h2 : yamlResolveValue env wsToken
      = String.mk (listReplace wsToken.data
          ('$' :: '{' :: ("WS_DIR".data ++ (':' :: "/tmp/ws".data) ++ ['}']))
          (yamlResolveEnvVar env ("WS_DIR".data) (':' :: "/tmp/ws".data))) := rfl
  rw [h2, h1]
  rfl

/-- C1 (amended): resolution and lookup for `get_environment`. The YAML
variant returns the block under `environments[E]` with every token of
its strings replaced (stated for documents whose relevant keys carry no
token, i.e. no `$`). The JSON variant looks up `E` at the TOP level of
the resolved document instead, so on the specification's scenario config
(which wraps environments under an `environments` key, `WS_DIR` unset)
the YAML variant returns `{"workspace_dir": "/tmp/ws"}` while the JSON
variant returns `None`. -/
theorem claim_C1 (env : Env) (fields ms : List (String × Json)) (E : String) (block : Json)
    (hfk : ∀ p ∈ fields, ('$' : Char) ∉ p.1.data)
    (hmk : ∀ p ∈ ms, ('$' : Char) ∉ p.1.data)
    (henv : lookupJ fields "environments" = some (Json.obj ms))
    (hE : lookupJ ms E = some block)
    (hwd : env "WS_DIR" = none) :
    yamlGetEnvironment env (Json.obj fields) E = some (mapStrings (yamlResolveValue env) block)
    ∧ yamlGetEnvironment env deploymentCfg "default"
        = some (Json.obj [("workspace_dir", Json.str "/tmp/ws")])
    ∧ jsonGetEnvironment env deploymentCfg "default" = none := by
  have hfk2 : ∀ p ∈ fields, yamlResolveValue env p.1 = p.1 :=
    fun p hp => yamlResolveValue_no_dollar env p.1 (hfk p hp)
  have hmk2 : ∀ p ∈ ms, yamlResolveValue env p.1 = p.1 :=
    fun p hp => yamlResolveValue_no_dollar env p.1 (hmk p hp)
  refine ⟨?_, ?_, ?_⟩
  · show (Option.bind (lookupJ (mapStringsFields (yamlResolveValue env) fields) "environments")
        (fun block => jsonGet block E)) = _
    rw [mapStringsFields_lookup (yamlResolveValue env) fields hfk2 "environments", henv]
    show lookupJ (mapStringsFields (yamlResolveValue env) ms) E = _
    rw [mapStringsFields_lookup (yamlResolveValue env) ms hmk2 E, hE]
    rfl
  · have h0 : yamlGetEnvironment env deploymentCfg "default"
        = some (Json.obj [("workspace_dir", Json.str (yamlResolveValue env wsToken))]) := rfl
    rw [h0, yamlResolve_wsToken env hwd]
  · rfl

theorem claim_C1_witness :
    yamlGetEnvironment envNone deploymentCfg "default"
      = some (Json.obj [("workspace_dir", Json.str "/tmp/ws")])
    ∧ jsonGetEnvironment envNone deploymentCfg "default" = none :=
  ⟨(claim_C1 envNone
      [("environments", Json.obj [("default", Json.obj [("workspace_dir", Json.str wsToken)])])]
      [("default", Json.obj [("workspace_dir", Json.str wsToken)])] "default"
      (Json.obj [("workspace_dir", Json.str wsToken)])
      (by decide) (by decide) rfl rfl rfl).2.1,
   (claim_C1 envNone
      [("environments", Json.obj [("default", Json.obj [("workspace_dir", Json.str wsToken)])])]
      [("default", Json.obj [("workspace_dir", Json.str wsToken)])] "default"
      (Json.obj [("workspace_dir", Json.str wsToken)])
      (by decide) (by decide) rfl rfl rfl).2.2⟩

theorem claim_C1_counterexample :
    jsonGetEnvironment envNone deploymentCfg "default" = none
    ∧ (none : Option Json) ≠ some (Json.obj [("workspace_dir", Json.str "/tmp/ws")]) :=
  ⟨rfl, fun h => nomatch h⟩

/-- C2 (amended): the YAML variant's `get_all_environment_names`
returns exactly the keys under `environments` (stated for documents
whose keys carry no token), independently of how tokens inside the
values interpolate; the JSON variant returns the TOP-level keys of the
resolved document — on the scenario config, `["environments"]`, not the
environment names — provided the substituted serialization re-parses (a
value holding an incomplete token such as `${A:x` makes its `json.loads`
raise instead). -/
theorem claim_C2 (env : Env) (fields ms : List (String × Json))
    (hfk : ∀ p ∈ fields, ('$' : Char) ∉ p.1.data)
    (hmk : ∀ p ∈ ms, ('$' : Char) ∉ p.1.data)
    (henv : lookupJ fields "environments" = some (Json.obj ms)) :
    yamlGetAllEnvironmentNames env (Json.obj fields) = some (ms.map Prod.fst)
    ∧ jsonGetAllEnvironmentNames env deploymentCfg = some ["environments"] := by
  have hfk2 : ∀ p ∈ fields, yamlResolveValue env p.1 = p.1 :=
    fun p hp => yamlResolveValue_no_dollar env p.1 (hfk p hp)
  have hmk2 : ∀ p ∈ ms, yamlResolveValue env p.1 = p.1 :=
    fun p hp => yamlResolveValue_no_dollar env p.1 (hmk p hp)
  constructor
  · have h1 : jsonGet (yamlReadResolved env (Json.obj fields)) "environments"
        = some (Json.obj (mapStringsFields (yamlResolveValue env) ms)) := by
      show lookupJ (mapStringsFields (yamlResolveValue env) fields) "environments" = _
      rw [mapStringsFields_lookup (yamlResolveValue env) fields hfk2 "environments", henv]
      rfl
    unfold yamlGetAllEnvironmentNames
    rw [h1]
    show some ((mapStringsFields (yamlResolveValue env) ms).map Prod.fst) = _
    rw [mapStringsFields_keys (yamlResolveValue env) ms hmk2]
  · rfl

theorem claim_C2_witness :
    yamlGetAllEnvironmentNames envNone deploymentCfg = some ["default"]
    ∧ jsonGetAllEnvironmentNames envNone deploymentCfg = some ["environments"] :=
  claim_C2 envNone
    [("environments", Json.obj [("default", Json.obj [("workspace_dir", Json.str wsToken)])])]
    [("default", Json.obj [("workspace_dir", Json.str wsToken)])]
    (by decide) (by decide) rfl

theorem claim_C2_counterexample :
    jsonGetAllEnvironmentNames envNone deploymentCfg = some ["environments"]
    ∧ jsonGetAllEnvironmentNames envNone deploymentCfg ≠ some ["default"] :=
  ⟨rfl, by decide⟩

theorem takeWhile_append_stop (p : Char → Bool) :
    ∀ (l : List Char) (c : Char) (r : List Char), (∀ a ∈ l, p a = true) → p c = false →
      (l ++ c :: r).takeWhile p = l ∧ (l ++ c :: r).dropWhile p = c :: r := by
  intro l
  induction l with
  | nil =>
    intro c r _ hc
    constructor
    · rw [List.nil_append, List.takeWhile_cons, hc]
      rfl
    · rw [List.nil_append, List.dropWhile_cons, hc]
      rfl
  | cons a l ih =>
    intro c r h hc
    have ha : p a = true := h a (List.mem_cons_self a l)
    have hrec := ih c r (fun b hb => h b (List.mem_cons_of_mem a hb)) hc
    constructor
    · rw [List.cons_append, List.takeWhile_cons, ha, if_pos rfl, hrec.1]
    · rw [List.cons_append, List.dropWhile_cons, ha, if_pos rfl, hrec.2]

theorem dropWhile_head_not (p : Char → Bool) :
    ∀ (l : List Char) (c : Char) (r : List Char), l.dropWhile p = c :: r → p c = false := by
  intro l
  induction l with
  | nil => intro c r h; exact absurd h (by simp)
  | cons a l ih =>
    intro c r h
    rw [List.dropWhile_cons] at h
    by_cases ha : p a = true
    · rw [if_pos ha] at h
      exact ih c r h
    · rw [if_neg ha] at h
      obtain ⟨h1, _⟩ := List.cons.inj h
      rw [← h1]
      exact Bool.eq_false_iff.mpr ha

theorem afterColon_nil (name d : List Char) : afterColon name d [] = none := by
  unfold afterColon
  by_cases hd : d = []
  · rw [if_pos hd]
  · rw [if_neg hd]

theorem afterColon_cons (name d : List Char) (c : Char) (r4 : List Char) :
    afterColon name d (c :: r4)
      = if d = [] then none else if c = '}' then some (name, ':' :: d, r4) else none := rfl

theorem afterName_nil (name : List Char) : afterName name [] = none := by
  unfold afterName
  by_cases hn : name = []
  · rw [if_pos hn]
  · rw [if_neg hn]

theorem afterName_cons (name : List Char) (c : Char) (r2 : List Char) :
    afterName name (c :: r2)
      = if name = [] then none
        else if c = '}' then some (name, [], r2)
        else if c = ':' then
          afterColon name (r2.takeWhile defaultChar) (r2.dropWhile defaultChar)
        else none := rfl

theorem tryToken_cons2 (c1 c2 : Char) (rest : List Char) :
    tryToken (c1 :: c2 :: rest) = if c1 = '$' ∧ c2 = '{' then tryTokenBody rest else none := rfl

theorem tokenMatch_some (cs n dflt r : List Char) (h : tryToken cs = some (n, dflt, r)) :
    tokenMatch cs = r.isEmpty := by
  unfold tokenMatch
  rw [h]

theorem tokenMatch_none (cs : List Char) (h : tryToken cs = none) : tokenMatch cs = false := by
  unfold tokenMatch
  rw [h]

theorem afterColon_some (name d r3 n dflt r : List Char)
    (h : afterColon name d r3 = some (n, dflt, r)) :
    n = name ∧ d ≠ [] ∧ dflt = ':' :: d ∧ r3 = '}' :: r := by
  cases r3 with
  | nil => rw [afterColon_nil] at h; exact absurd h (by simp)
  | cons c r4 =>
    rw [afterColon_cons] at h
    by_cases hd : d = []
    · rw [if_pos hd] at h
      exact absurd h (by simp)
    · rw [if_neg hd] at h
      by_cases hc : c = '}'
      · rw [if_pos hc] at h
        simp only [Option.some.injEq, Prod.mk.injEq] at h
        obtain ⟨h1, h2, h3⟩ := h
        exact ⟨h1.symm, hd, h2.symm, by rw [hc, h3]⟩
      · rw [if_neg hc] at h
        exact absurd h (by simp)

theorem afterName_some (name r1 n dflt r : List Char)
    (h : afterName name r1 = some (n, dflt, r)) :
    n = name ∧ name ≠ [] ∧
      ((dflt = [] ∧ r1 = '}' :: r)
        ∨ (∃ d, d ≠ [] ∧ (∀ c ∈ d, defaultChar c = true) ∧ dflt = ':' :: d
            ∧ r1 = ':' :: (d ++ '}' :: r))) := by
  cases r1 with
  | nil => rw [afterName_nil] at h; exact absurd h (by simp)
  | cons c r2 =>
    rw [afterName_cons] at h
    by_cases hname : name = []
    · rw [if_pos hname] at h
      exact absurd h (by simp)
    · rw [if_neg hname] at h
      by_cases hc : c = '}'
      · rw [if_pos hc] at h
        simp only [Option.some.injEq, Prod.mk.injEq] at h
        obtain ⟨h1, h2, h3⟩ := h
        exact ⟨h1.symm, hname, Or.inl ⟨h2.symm, by rw [hc, h3]⟩⟩
      · rw [if_neg hc] at h
        by_cases hcc : c = ':'
        · rw [if_pos hcc] at h
          obtain ⟨h1, hd, h2, h3⟩ :=
            afterColon_some name (r2.takeWhile defaultChar) (r2.dropWhile defaultChar) n dflt r h
          refine ⟨h1, hname, Or.inr ⟨r2.takeWhile defaultChar, hd, ?_, h2, ?_⟩⟩
          · intro a ha
            exact List.mem_takeWhile_imp ha
          · rw [hcc]
            rw [show r2.takeWhile defaultChar ++ '}' :: r
                  = r2.takeWhile defaultChar ++ r2.dropWhile defaultChar from by rw [h3],
                List.takeWhile_append_dropWhile]
        · rw [if_neg hcc] at h
          exact absurd h (by simp)

theorem tokenMatch_build1 (n : List Char) (hn : n ≠ []) (hmem : ∀ c ∈ n, nameChar c = true) :
    tokenMatch ('$' :: '{' :: (n ++ ['}'])) = true := by
  obtain ⟨ht, hdrop⟩ := takeWhile_append_stop nameChar n '}' [] hmem (by decide)
  have h1 : tryToken ('$' :: '{' :: (n ++ ['}'])) = some (n, [], []) := by
    rw [tryToken_cons2, if_pos ⟨rfl, rfl⟩]
    unfold tryTokenBody
    rw [ht, hdrop, afterName_cons, if_neg hn, if_pos rfl]
  rw [tokenMatch_some _ n [] [] h1]
  rfl

theorem tokenMatch_build2 (n d : List Char) (hn : n ≠ []) (hd : d ≠ [])
    (hnmem : ∀ c ∈ n, nameChar c = true) (hdmem : ∀ c ∈ d, defaultChar c = true) :
    tokenMatch ('$' :: '{' :: (n ++ ':' :: (d ++ ['}']))) = true := by
  obtain ⟨ht, hdrop⟩ := takeWhile_append_stop nameChar n ':' (d ++ ['}']) hnmem (by decide)
  obtain ⟨htd, hdropd⟩ := takeWhile_append_stop defaultChar d '}' [] hdmem (by decide)
  have h1 : tryToken ('$' :: '{' :: (n ++ ':' :: (d ++ ['}']))) = some (n, ':' :: d, []) := by
    rw [tryToken_cons2, if_pos ⟨rfl, rfl⟩]
    unfold tryTokenBody
    rw [ht, hdrop, afterName_cons, if_neg hn,
        if_neg (by decide : ¬(':' : Char) = '}'), if_pos rfl,
        htd, hdropd, afterColon_cons, if_neg hd, if_pos rfl]
  rw [tokenMatch_some _ n (':' :: d) [] h1]
  rfl

/-- C6 (amended): the interpolation pattern shared by both variants
recognizes exactly the tokens `${NAME}` and `${NAME:default}` where NAME
is non-empty and contains none of `{`, `}`, `:`, and default is
non-empty and contains none of `{`, `}`, `^` — the caret is excluded as
well, because `[^}^{]` lists it as a literal class member. -/
theorem claim_C6 (cs : List Char) : tokenMatch cs = true ↔ regexTokenShape cs := by
  constructor
  · intro h
    cases cs with
    | nil =>
      rw [show tokenMatch [] = false from rfl] at h
      exact Bool.noConfusion h
    | cons c1 cs1 =>
      cases cs1 with
      | nil =>
        rw [show tokenMatch [c1] = false from rfl] at h
        exact Bool.noConfusion h
      | cons c2 rest =>
        by_cases hc : c1 = '$' ∧ c2 = '{'
        · have htt : tryToken (c1 :: c2 :: rest) = tryTokenBody rest := by
            rw [tryToken_cons2, if_pos hc]
          cases htb : tryTokenBody rest with
          | none =>
            rw [tokenMatch_none _ (htt.trans htb)] at h
            exact Bool.noConfusion h
          | some triple =>
            obtain ⟨n, dflt, r⟩ := triple
            rw [tokenMatch_some _ n dflt r (htt.trans htb)] at h
            have hr : r = [] := List.isEmpty_iff.mp h
            unfold tryTokenBody at htb
            obtain ⟨hn, hname, hshape⟩ :=
              afterName_some (rest.takeWhile nameChar) (rest.dropWhile nameChar) n dflt r htb
            have hmem : ∀ c ∈ rest.takeWhile nameChar, nameChar c = true :=
              fun c hcm => List.mem_takeWhile_imp hcm
            have hrest : rest = rest.takeWhile nameChar ++ rest.dropWhile nameChar :=
              (List.takeWhile_append_dropWhile nameChar rest).symm
            rcases hshape with ⟨_, hr1⟩ | ⟨d, hd, hdmem, _, hr1⟩
            · refine Or.inl ⟨rest.takeWhile nameChar, hname, hmem, ?_⟩
              rw [hc.1, hc.2]
              have hre : rest = rest.takeWhile nameChar ++ ['}'] := by
                conv_lhs => rw [hrest]
                rw [hr1, hr]
              exact congrArg (fun l => '$' :: '{' :: l) hre
            · refine Or.inr ⟨rest.takeWhile nameChar, d, hname, hd, hmem, hdmem, ?_⟩
              rw [hc.1, hc.2]
              have hre : rest = rest.takeWhile nameChar ++ ':' :: (d ++ ['}']) := by
                conv_lhs => rw [hrest]
                rw [hr1, hr]
              exact congrArg (fun l => '$' :: '{' :: l) hre
        · rw [tokenMatch_none _ (by rw [tryToken_cons2, if_neg hc])] at h
          exact Bool.noConfusion h
  · intro h
    rcases h with ⟨n, hn, hmem, hcs⟩ | ⟨n, d, hn, hd, hnmem, hdmem, hcs⟩
    · rw [hcs]
      exact tokenMatch_build1 n hn hmem
    · rw [hcs]
      exact tokenMatch_build2 n d hn hd hnmem hdmem

theorem claim_C6_witness : tokenMatch ['$', '{', 'V', ':', 'a', 'b', '}'] = true :=
  (claim_C6 ['$', '{', 'V', ':', 'a', 'b', '}']).mpr
    (Or.inr ⟨['V'], ['a', 'b'], by decide, by decide, by decide, by decide, rfl⟩)

theorem claim_C6_counterexample :
    claimTokenShape caretToken ∧ tokenMatch caretToken = false :=
  ⟨Or.inr ⟨['V'], ['a', '^', 'b'], by decide, by decide, by decide, by decide, rfl⟩,
   by decide⟩

end Dbx
